import Mathlib

/-!
Verification of the RAG (retrieval-augmented generation) service core.

The development shallowly embeds the repository's Python modules:
  * `app/rag_chain.py`   — session memory and the conversational query pipeline
  * `app/vector_store.py` — the Pinecone gateway (`delete_all_records`, search)
  * `app/document_loader.py` — `chunk_documents`

Text is modelled as `List Char`.  The external backends (retriever, LLM,
vector database) are modelled as explicit parameters / state: a backend call
that may fail is an `Option` result threaded into the pipeline function.
The per-session history map (a Python dict) is modelled as a function
`String → Option (List Turn)`.
-/

namespace RagChain

/-- A retrieved document as langchain hands it to `query`:
`page_content` plus a metadata mapping from which `query` reads the keys
`"source"` and `"type"` with `metadata.get(key, "Unknown")` semantics. -/
structure Doc where
  page_content : List Char
  metaSource : Option String
  metaType : Option String
deriving DecidableEq

/-- The role tag of a turn stored in a session history
(`("human", question)` / `("assistant", answer)` in `rag_chain.query`). -/
inductive Role where
  | human
  | assistant
deriving DecidableEq

/-- One turn of a session history: a role together with its text. -/
abbrev Turn := Role × List Char

/-- The module-level dict `_session_histories : Dict[str, List]` of
`rag_chain.py`, modelled as a partial map from session id to turn list. -/
abbrev SessionMap := String → Option (List Turn)

/-- The empty session map (fresh process state). -/
def emptyMap : SessionMap := fun _ => none

/-- `rag_chain.get_history`: if the session id is absent, register an empty
list for it; return the session's history together with the (possibly
updated) map. -/
def get_history (sid : String) (st : SessionMap) : List Turn × SessionMap :=
  match st sid with
  | some h => (h, st)
  | none => ([], fun s => if s = sid then some [] else st s)

/-- `rag_chain.clear_memory`: delete the session's entry if present and
report whether one existed. -/
def clear_memory (sid : String) (st : SessionMap) : Bool × SessionMap :=
  match st sid with
  | some _ => (true, fun s => if s = sid then none else st s)
  | none => (false, st)

/-- `rag_chain.format_docs`: join the retrieved contents with blank lines. -/
def format_docs (docs : List Doc) : List Char :=
  List.intercalate [Char.ofNat 10, Char.ofNat 10] (docs.map (·.page_content))

/-- One `sources` entry of a query result
(`{source, type, content_preview}`). -/
structure SourceEntry where
  source : String
  type : String
  content_preview : List Char
deriving DecidableEq

/-- The trailing ellipsis marker `"..."` appended to truncated previews. -/
def ellipsis : List Char := ['.', '.', '.']

/-- The `sources` entry `query` builds for one retrieved document:
`doc.page_content[:200] + "..." if len(doc.page_content) > 200 else
doc.page_content`, with `metadata.get("source"/"type", "Unknown")`. -/
def mkSourceEntry (d : Doc) : SourceEntry :=
  { source := d.metaSource.getD "Unknown"
    type := d.metaType.getD "Unknown"
    content_preview :=
      if d.page_content.length > 200 then d.page_content.take 200 ++ ellipsis
      else d.page_content }

/-- The value returned by a successful `query`: answer plus sources. -/
structure QueryResult where
  answer : List Char
  sources : List SourceEntry
deriving DecidableEq

/-- The trim step of `query`:
`if len(history) > 20: _session_histories[session_id] = history[-20:]`. -/
def trimHistory (h : List Turn) : List Turn :=
  if h.length > 20 then h.drop (h.length - 20) else h

/-- `rag_chain.query(question, session_id)` with the two fallible backend
calls passed in explicitly: `retr` is the outcome of `retriever.invoke`
(`none` = retrieval raised) and `gen` the outcome of `chain.invoke`
(`none` = generation raised).  Mirrors the source's order: `get_history`
runs first (registering an empty history for a fresh session), then
retrieval, then generation, and only after generation succeeds are the
human and assistant turns appended and the history trimmed. -/
def queryStep (retr : Option (List Doc)) (gen : Option (List Char))
    (question : List Char) (sid : String) (st : SessionMap) :
    Option QueryResult × SessionMap :=
  let hs := get_history sid st
  match retr with
  | none => (none, hs.2)
  | some docs =>
    match gen with
    | none => (none, hs.2)
    | some answer =>
      let newHist :=
        trimHistory (hs.1 ++ [(Role.human, question), (Role.assistant, answer)])
      (some { answer := answer, sources := docs.map mkSourceEntry },
        fun s => if s = sid then some newHist else hs.2 s)

/-- The literal default of `query`'s `session_id` parameter. -/
def defaultSessionId : String := "default"

/-- `query` called with `session_id` omitted: the Python default argument
`session_id: str = "default"`. -/
def queryNoSession (retr : Option (List Doc)) (gen : Option (List Char))
    (question : List Char) (st : SessionMap) : Option QueryResult × SessionMap :=
  queryStep retr gen question defaultSessionId st

/-- Question text used by the `n`-th query of the concrete 11-query
scenario: the single character with code `48 + n`. -/
def scenarioText (n : Nat) : List Char := [Char.ofNat (48 + n)]

/-- Run `n` successful queries (numbered `0, …, n-1`, in order) against
session `"s"`, the `i`-th with question and answer `scenarioText i`. -/
def runQueries : Nat → SessionMap → SessionMap
  | 0, st => st
  | n + 1, st =>
      (queryStep (some []) (some (scenarioText n)) (scenarioText n) "s"
        (runQueries n st)).2

end RagChain

namespace VectorStore

/-- The observable state of the external Pinecone index: for each
namespace name, the number of records it holds.  `describe_index_stats`
reports exactly this state (namespace keys and `total_vector_count`). -/
structure IndexState where
  namespaces : List (String × Nat)
deriving DecidableEq

/-- `total_vector_count` as reported by `index.describe_index_stats()`:
the sum of the per-namespace record counts. -/
def total_vector_count (idx : IndexState) : Nat :=
  (idx.namespaces.map (·.2)).sum

/-- `index.delete(delete_all=True, namespace=ns)`: drop every record of
namespace `ns`. -/
def deleteNamespace (idx : IndexState) (ns : String) : IndexState :=
  ⟨idx.namespaces.filter (fun p => p.1 ≠ ns)⟩

/-- `vector_store.delete_all_records`: read the stats first, delete the
default namespace `""`, then delete every other namespace the stats
reported, and return `{deleted: True, previous_vector_count}` with the
count read before any deletion. -/
def delete_all_records (idx : IndexState) : (Bool × Nat) × IndexState :=
  let stats := idx
  let idx1 := deleteNamespace idx ""
  let idx2 := stats.namespaces.foldl
    (fun acc p => if p.1 ≠ "" then deleteNamespace acc p.1 else acc) idx1
  ((true, total_vector_count stats), idx2)

/-- The error the similarity-search operation reports for a bad `k`. -/
inductive SearchError where
  | invalidArgument
deriving DecidableEq

/-- Insert a document into a list kept in descending-score order. -/
def insertByScore (score : RagChain.Doc → Int) (d : RagChain.Doc) :
    List RagChain.Doc → List RagChain.Doc
  | [] => [d]
  | e :: es =>
      if score e ≤ score d then d :: e :: es else e :: insertByScore score d es

/-- Order the index's records by descending similarity score. -/
def rankByScore (score : RagChain.Doc → Int) (index : List RagChain.Doc) :
    List RagChain.Doc :=
  index.foldr (insertByScore score) []

/-- Modelled from the spec: the nearest-neighbour search of the external
vector-database backend (the Pinecone service behind
`vector_store.similarity_search` / `get_retriever`, whose code is not in
this repository).  Per §4.2, `k` must be ≥ 1 and the call fails with
`InvalidArgument` otherwise; for `k ≥ 1` it returns the records ordered by
descending similarity, at most `k` of them, and returns fewer than `k`
without error when the index holds fewer records.  `score` abstracts the
store's similarity of each record to the query embedding. -/
def backend_search (index : List RagChain.Doc) (score : RagChain.Doc → Int)
    (k : Int) : Except SearchError (List RagChain.Doc) :=
  if k < 1 then .error .invalidArgument
  else .ok ((rankByScore score index).take k.toNat)

/-- `vector_store.similarity_search(query, k)`: delegates to the backend
search unchanged (the repository function adds no validation of its own). -/
def similarity_search (index : List RagChain.Doc) (score : RagChain.Doc → Int)
    (k : Int) : Except SearchError (List RagChain.Doc) :=
  backend_search index score k

end VectorStore

namespace DocumentLoader

/-- Does `pat` occur at the very front of `l`? -/
def leadsWith : List Char → List Char → Bool
  | [], _ => true
  | _ :: _, [] => false
  | a :: as, b :: bs => a == b && leadsWith as bs

/-- Fuel-driven split of `text` at every occurrence of the (non-empty)
separator `sep`; the fuel starts at `text.length`, which one consumed
character per step makes sufficient. -/
def splitSepGo (sep : List Char) : Nat → List Char → List Char → List (List Char)
  | 0, rest, acc => [acc.reverse ++ rest]
  | fuel + 1, text, acc =>
    match text with
    | [] => [acc.reverse]
    | c :: cs =>
      if leadsWith sep (c :: cs) then
        acc.reverse :: splitSepGo sep fuel (List.drop (sep.length - 1) cs) []
      else
        splitSepGo sep fuel cs (c :: acc)

/-- Split `text` at separator `sep`; the empty separator means character
granularity (each character its own segment). -/
def sepSplit (sep : List Char) (text : List Char) : List (List Char) :=
  if sep.isEmpty then text.map (fun c => [c])
  else splitSepGo sep text.length text []

/-- The last `n` characters of `l` (all of `l` when it is shorter). -/
def takeRight (n : Nat) (l : List Char) : List Char :=
  l.drop (l.length - n)

/-- Merge segments that already fit into overlapping windows: accumulate
into the current window while it stays within `maxSize`; when the next
segment would overflow, emit the window and seed the next one with up to
`ovl` trailing characters of the emitted window (trimmed so the seed plus
the segment still fit in `maxSize`). -/
def mergeAux (maxSize ovl : Nat) : List (List Char) → List Char → List (List Char)
  | [], cur => [cur]
  | p :: ps, cur =>
    if cur.length + p.length ≤ maxSize then mergeAux maxSize ovl ps (cur ++ p)
    else
      cur :: mergeAux maxSize ovl ps
        (takeRight (min ovl (maxSize - p.length)) cur ++ p)

/-- Merge a run of fitting segments into windows (initial window empty). -/
def mergeParts (maxSize ovl : Nat) (parts : List (List Char)) : List (List Char) :=
  mergeAux maxSize ovl parts []

/-- Walk the segments produced by one separator: segments of length
≤ `maxSize` are collected (in `acc`, reversed) and merged into windows;
a segment still exceeding `maxSize` is handed to `recur`, the splitter
for the remaining (finer) separators. -/
def goParts (maxSize ovl : Nat) (recur : List Char → List (List Char)) :
    List (List Char) → List (List Char) → List (List Char)
  | acc, [] => mergeParts maxSize ovl acc.reverse
  | acc, p :: ps =>
    if p.length ≤ maxSize then goParts maxSize ovl recur (p :: acc) ps
    else
      mergeParts maxSize ovl acc.reverse ++ recur p ++
        goParts maxSize ovl recur [] ps

/-- Modelled from the spec: the recursive separator-cascade splitter
behind `chunk_documents` (langchain's `RecursiveCharacterTextSplitter`,
whose code is not in this repository).  Per §4.1: attempt the coarsest
separator first and fall back to a finer one only for a segment that
still exceeds `maxSize`; when no separator is left the segment is atomic
and is emitted as-is even if over-long (never force-split past the final
separator granularity). -/
def splitRec (maxSize ovl : Nat) : List (List Char) → List Char → List (List Char)
  | [], text => [text]
  | sep :: rest, text =>
    goParts maxSize ovl (splitRec maxSize ovl rest) [] (sepSplit sep text)

/-- The separator cascade `chunk_documents` configures:
`separators=["\n\n", "\n", " ", ""]`. -/
def separatorCascade : List (List Char) :=
  [[Char.ofNat 10, Char.ofNat 10], [Char.ofNat 10], [' '], []]

/-- Split one text with the configured cascade and drop empty or
whitespace-only segments (per §4.1 they are never emitted as units). -/
def chunk_text (maxSize ovl : Nat) (text : List Char) : List (List Char) :=
  (splitRec maxSize ovl separatorCascade text).filter
    (fun c => c.any (fun ch => !ch.isWhitespace))

/-- The configuration error of §7: bad chunking parameters. -/
inductive ChunkError where
  | invalidConfiguration
deriving DecidableEq

/-- Modelled from the spec (the splitting itself lives in the external
langchain library): `document_loader.chunk_documents(documents,
chunk_size, chunk_overlap)` — fails with `InvalidConfiguration` when
`chunk_overlap ≥ chunk_size` (§4.1), otherwise splits every document's
content with the separator cascade and stamps each resulting unit with
the source document's unchanged metadata. -/
def chunk_documents (docs : List RagChain.Doc) (chunk_size chunk_overlap : Nat) :
    Except ChunkError (List RagChain.Doc) :=
  if chunk_size ≤ chunk_overlap then .error .invalidConfiguration
  else
    .ok (docs.flatMap fun d =>
      (chunk_text chunk_size chunk_overlap d.page_content).map fun c =>
        { d with page_content := c })

end DocumentLoader

open RagChain VectorStore DocumentLoader

/-! ## Helper lemmas for the chunker bound -/

theorem takeRight_length_le (n : Nat) (l : List Char) :
    (takeRight n l).length ≤ n := by
  simp only [takeRight, List.length_drop]
  omega

theorem mergeAux_bound (maxSize ovl : Nat) (parts : List (List Char))
    (cur : List Char) (hp : ∀ p ∈ parts, p.length ≤ maxSize)
    (hc : cur.length ≤ maxSize) :
    ∀ c ∈ mergeAux maxSize ovl parts cur, c.length ≤ maxSize := by
  induction parts generalizing cur with
  | nil =>
    intro c hmem
    simp only [mergeAux, List.mem_singleton] at hmem
    exact hmem ▸ hc
  | cons p ps ih =>
    intro c hmem
    have hple : p.length ≤ maxSize := hp p (List.mem_cons_self p ps)
    have hps : ∀ q ∈ ps, q.length ≤ maxSize := fun q hq =>
      hp q (List.mem_cons_of_mem p hq)
    simp only [mergeAux] at hmem
    by_cases hfit : cur.length + p.length ≤ maxSize
    · rw [if_pos hfit] at hmem
      exact ih (cur ++ p) hps (by simp; omega) c hmem
    · rw [if_neg hfit] at hmem
      rcases List.mem_cons.mp hmem with hc' | hmem'
      · exact hc' ▸ hc
      · refine ih _ hps ?_ c hmem'
        have h1 := takeRight_length_le (min ovl (maxSize - p.length)) cur
        simp only [List.length_append]
        omega

theorem goParts_bound (maxSize ovl : Nat) (recur : List Char → List (List Char))
    (parts acc : List (List Char))
    (hrec : ∀ p ∈ parts, maxSize < p.length →
      ∀ c ∈ recur p, c.length ≤ maxSize)
    (hacc : ∀ a ∈ acc, a.length ≤ maxSize) :
    ∀ c ∈ goParts maxSize ovl recur acc parts, c.length ≤ maxSize := by
  induction parts generalizing acc with
  | nil =>
    intro c hmem
    simp only [goParts, mergeParts] at hmem
    exact mergeAux_bound maxSize ovl acc.reverse []
      (fun p hp => hacc p (List.mem_reverse.mp hp)) (by simp) c hmem
  | cons p ps ih =>
    intro c hmem
    have hps : ∀ q ∈ ps, maxSize < q.length → ∀ c ∈ recur q, c.length ≤ maxSize :=
      fun q hq => hrec q (List.mem_cons_of_mem p hq)
    simp only [goParts] at hmem
    by_cases hfit : p.length ≤ maxSize
    · rw [if_pos hfit] at hmem
      refine ih (p :: acc) hps ?_ c hmem
      intro a ha
      rcases List.mem_cons.mp ha with h | h
      · exact h ▸ hfit
      · exact hacc a h
    · rw [if_neg hfit] at hmem
      rcases List.mem_append.mp hmem with h1 | h2
      · rcases List.mem_append.mp h1 with hm | hr
        · exact mergeAux_bound maxSize ovl acc.reverse []
            (fun q hq => hacc q (List.mem_reverse.mp hq)) (by simp) c hm
        · exact hrec p (List.mem_cons_self p ps) (by omega) c hr
      · exact ih [] hps (by simp) c h2

theorem sepSplit_empty_sep (text : List Char) :
    ∀ p ∈ sepSplit [] text, p.length = 1 := by
  intro p hp
  simp only [sepSplit, List.isEmpty_nil, if_pos] at hp
  rcases List.mem_map.mp hp with ⟨a, _, rfl⟩
  rfl

theorem splitRec_bound (maxSize ovl : Nat) (hms : 1 ≤ maxSize)
    (seps : List (List Char)) (hsep : [] ∈ seps) :
    ∀ text c, c ∈ splitRec maxSize ovl seps text → c.length ≤ maxSize := by
  induction seps with
  | nil => cases hsep
  | cons sep rest ih =>
    intro text c hmem
    simp only [splitRec] at hmem
    refine goParts_bound maxSize ovl (splitRec maxSize ovl rest) _ [] ?_ (by simp)
      c hmem
    intro p hp hlong
    by_cases hnil : sep = []
    · subst hnil
      have := sepSplit_empty_sep text p hp
      omega
    · have hrest : [] ∈ rest := by
        rcases List.mem_cons.mp hsep with h | h
        · exact absurd h.symm hnil
        · exact h
      exact fun c hc => ih hrest p c hc

theorem chunk_text_bound (maxSize ovl : Nat) (hms : 1 ≤ maxSize)
    (text : List Char) :
    ∀ c ∈ chunk_text maxSize ovl text, c.length ≤ maxSize := by
  intro c hc
  have hmem := List.mem_of_mem_filter hc
  have hcas : ([] : List Char) ∈ separatorCascade := by
    simp [separatorCascade]
  exact splitRec_bound maxSize ovl hms separatorCascade hcas text c hmem

/-! ## Claim theorems: chunker -/

/-- Claim C3: `chunk_documents` fails with `InvalidConfiguration` for every
configuration with `chunk_overlap ≥ chunk_size` (including equality), and
for `chunk_overlap < chunk_size` it succeeds; being a Lean function of its
arguments alone, it is pure and deterministic. -/
theorem chunk_documents_invalid_configuration
    (docs : List RagChain.Doc) (chunk_size chunk_overlap : Nat) :
    (chunk_size ≤ chunk_overlap →
      chunk_documents docs chunk_size chunk_overlap =
        .error .invalidConfiguration)
    ∧ (chunk_overlap < chunk_size →
      ∃ cs, chunk_documents docs chunk_size chunk_overlap = .ok cs) := by
  constructor
  · intro h
    simp [chunk_documents, h]
  · intro h
    refine ⟨docs.flatMap fun d =>
      (chunk_text chunk_size chunk_overlap d.page_content).map fun c =>
        { d with page_content := c }, ?_⟩
    simp [chunk_documents, Nat.not_le.mpr h]

/-- Witness for C3 at concrete configurations: overlap = size (5, 5) is
rejected, overlap < size (2 < 5) is accepted. -/
theorem chunk_documents_invalid_configuration_witness :
    chunk_documents [] 5 5 = .error .invalidConfiguration
    ∧ ∃ cs, chunk_documents [] 5 2 = .ok cs :=
  ⟨(chunk_documents_invalid_configuration [] 5 5).1 (by decide),
   (chunk_documents_invalid_configuration [] 5 2).2 (by decide)⟩

/-- Claim C4: with `chunk_overlap < chunk_size`, every unit emitted by
`chunk_documents` has content length ≤ `chunk_size` (the cascade ends in
character granularity, so the atomic-segment exception the claim allows
is never even needed). -/
theorem chunk_documents_size_bound
    (docs : List RagChain.Doc) (chunk_size chunk_overlap : Nat)
    (h : chunk_overlap < chunk_size) :
    ∃ cs, chunk_documents docs chunk_size chunk_overlap = .ok cs
      ∧ ∀ u ∈ cs, u.page_content.length ≤ chunk_size := by
  refine ⟨docs.flatMap fun d =>
    (chunk_text chunk_size chunk_overlap d.page_content).map fun c =>
      { d with page_content := c },
    by simp [chunk_documents, Nat.not_le.mpr h], ?_⟩
  intro u hu
  rcases List.mem_flatMap.mp hu with ⟨d, _, hu'⟩
  rcases List.mem_map.mp hu' with ⟨c, hc, rfl⟩
  exact chunk_text_bound chunk_size chunk_overlap (by omega) d.page_content c hc

/-- Witness for C4: a concrete 39-character text chunked with size 10,
overlap 3 yields only units of length ≤ 10. -/
theorem chunk_documents_size_bound_witness :
    ∃ cs,
      chunk_documents
        [⟨('h' :: 'e' :: 'l' :: 'l' :: 'o' :: ' ' :: 'w' :: 'o' :: 'r' :: 'l' ::
           'd' :: ' ' :: 't' :: 'h' :: 'i' :: 's' :: ' ' :: 'i' :: 's' :: ' ' ::
           'a' :: ' ' :: 't' :: 'e' :: 's' :: 't' :: []),
          some "a.txt", some "pdf"⟩] 10 3 = .ok cs
      ∧ ∀ u ∈ cs, u.page_content.length ≤ 10 :=
  chunk_documents_size_bound _ 10 3 (by decide)

/-! ## Helper lemmas for search and reset -/

theorem insertByScore_length (score : RagChain.Doc → Int) (d : RagChain.Doc)
    (l : List RagChain.Doc) :
    (insertByScore score d l).length = l.length + 1 := by
  induction l with
  | nil => rfl
  | cons e es ih =>
    simp only [insertByScore]
    by_cases h : score e ≤ score d
    · rw [if_pos h]
      rfl
    · rw [if_neg h]
      simp [ih]

theorem rankByScore_length (score : RagChain.Doc → Int)
    (index : List RagChain.Doc) :
    (rankByScore score index).length = index.length := by
  induction index with
  | nil => rfl
  | cons d ds ih =>
    simp only [rankByScore, List.foldr_cons] at *
    rw [insertByScore_length, ih, List.length_cons]

theorem foldl_delete_spec (l : List (String × Nat)) (a : IndexState) :
    ∀ q ∈ (l.foldl
      (fun acc p => if p.1 ≠ "" then deleteNamespace acc p.1 else acc)
      a).namespaces,
      q ∈ a.namespaces ∧ ∀ p ∈ l, p.1 ≠ "" → q.1 ≠ p.1 := by
  induction l generalizing a with
  | nil =>
    intro q hq
    exact ⟨hq, by simp⟩
  | cons p l ih =>
    intro q hq
    simp only [List.foldl_cons] at hq
    have step := ih (if p.1 ≠ "" then deleteNamespace a p.1 else a) q hq
    have hmem : q ∈ a.namespaces ∧ (p.1 ≠ "" → q.1 ≠ p.1) := by
      by_cases hp : p.1 = ""
      · rw [if_neg (by simp [hp])] at step
        exact ⟨step.1, fun h => absurd hp h⟩
      · rw [if_pos hp] at step
        have := step.1
        simp only [deleteNamespace, List.mem_filter, decide_eq_true_eq] at this
        exact ⟨this.1, fun _ => this.2⟩
    refine ⟨hmem.1, ?_⟩
    intro r hr hrne
    rcases List.mem_cons.mp hr with h | h
    · exact h ▸ hmem.2 (h ▸ hrne)
    · exact step.2 r h hrne

theorem delete_all_records_empties (idx : IndexState) :
    (delete_all_records idx).2.namespaces = [] := by
  rw [List.eq_nil_iff_forall_not_mem]
  intro q hq
  simp only [delete_all_records] at hq
  have h := foldl_delete_spec idx.namespaces (deleteNamespace idx "") q hq
  have h1 := h.1
  simp only [deleteNamespace, List.mem_filter, decide_eq_true_eq] at h1
  exact h.2 q h1.1 h1.2 rfl

/-! ## Claim theorems: vector store -/

/-- Claim C5: the similarity-search operation fails with `InvalidArgument`
for every `k < 1`; for `k ≥ 1` it always succeeds, returning
`min k (index size)` results — fewer than `k`, never an error, when the
index holds fewer records. -/
theorem similarity_search_k_contract (index : List RagChain.Doc)
    (score : RagChain.Doc → Int) (k : Int) :
    (k < 1 → similarity_search index score k = .error .invalidArgument)
    ∧ (1 ≤ k → ∃ rs, similarity_search index score k = .ok rs
        ∧ rs.length = min k.toNat index.length) := by
  constructor
  · intro h
    simp [similarity_search, backend_search, h]
  · intro h
    refine ⟨(rankByScore score index).take k.toNat, ?_, ?_⟩
    · simp [similarity_search, backend_search, Int.not_lt.mpr h]
    · rw [List.length_take, rankByScore_length]

/-- Witness for C5: `k = 0` is rejected; `k = 4` against a two-record
index succeeds with `min 4 2 = 2` results. -/
theorem similarity_search_k_contract_witness :
    similarity_search [] (fun _ => 0) 0 = .error .invalidArgument
    ∧ ∃ rs,
        similarity_search
          [⟨['x'], none, none⟩, ⟨['y'], none, none⟩] (fun _ => 0) 4 = .ok rs
        ∧ rs.length = min (Int.toNat 4) 2 :=
  ⟨(similarity_search_k_contract [] (fun _ => 0) 0).1 (by decide),
   (similarity_search_k_contract
     [⟨['x'], none, none⟩, ⟨['y'], none, none⟩] (fun _ => 0) 4).2 (by decide)⟩

/-- Claim C9: `delete_all_records` returns the record count read before any
deletion, leaves no namespace behind (default-namespace delete plus one
explicit delete per other namespace in the stats), and therefore a second
back-to-back call reports a count of 0. -/
theorem delete_all_records_reset (idx : IndexState) :
    (delete_all_records idx).1 = (true, total_vector_count idx)
    ∧ (delete_all_records idx).2.namespaces = []
    ∧ (delete_all_records ((delete_all_records idx).2)).1.2 = 0 := by
  refine ⟨rfl, delete_all_records_empties idx, ?_⟩
  have h := delete_all_records_empties idx
  have h2 : (delete_all_records ((delete_all_records idx).2)).1.2 =
      total_vector_count ((delete_all_records idx).2) := rfl
  rw [h2, total_vector_count, h]
  rfl

/-! ## Helper lemmas for the query pipeline -/

theorem trimHistory_eq (h : List Turn) :
    trimHistory h = if h.length ≤ 20 then h else h.drop (h.length - 20) := by
  simp only [trimHistory]
  by_cases hl : h.length ≤ 20
  · rw [if_neg (by omega), if_pos hl]
  · rw [if_pos (by omega), if_neg hl]

/-! ## Claim theorems: session memory and query pipeline -/

/-- Claim C1: every successful `query` appends exactly one human turn
followed by one assistant turn to its session's history and then trims the
history to at most 20 turns by dropping the oldest turns from the front;
concretely, after 11 successful queries on one session the history holds
exactly 20 turns and the turns of the first query have been evicted (the
oldest remaining pair is that of query 1). -/
theorem query_appends_pair_and_trims :
    (∀ docs ans q sid st,
      ((queryStep (some docs) (some ans) q sid st).1).isSome = true
      ∧ (queryStep (some docs) (some ans) q sid st).2 sid =
          some (
            if ((st sid).getD [] ++
                [(Role.human, q), (Role.assistant, ans)]).length ≤ 20
            then (st sid).getD [] ++ [(Role.human, q), (Role.assistant, ans)]
            else ((st sid).getD [] ++
                [(Role.human, q), (Role.assistant, ans)]).drop
              (((st sid).getD [] ++
                [(Role.human, q), (Role.assistant, ans)]).length - 20)))
    ∧ (((runQueries 11 emptyMap) "s").getD []).length = 20
    ∧ (((runQueries 11 emptyMap) "s").getD []).take 2 =
        [(Role.human, scenarioText 1), (Role.assistant, scenarioText 1)] := by
  refine ⟨?_, by decide, by decide⟩
  intro docs ans q sid st
  constructor
  · cases hst : st sid <;> simp [queryStep, get_history, hst]
  · cases hst : st sid <;>
      simp [queryStep, get_history, hst, trimHistory_eq]

/-- Claim C2: a query that fails at retrieval or at generation returns no
result and leaves every session's observable turn sequence unchanged (the
`(question, answer)` pair is appended only after generation succeeds). -/
theorem query_failure_no_partial_memory
    (retr : Option (List RagChain.Doc)) (gen : Option (List Char))
    (q : List Char) (sid : String) (st : SessionMap)
    (hfail : retr = none ∨ gen = none) :
    (queryStep retr gen q sid st).1 = none
    ∧ ∀ s, ((queryStep retr gen q sid st).2 s).getD [] = (st s).getD [] := by
  have key : ∀ s, ((get_history sid st).2 s).getD [] = (st s).getD [] := by
    intro s
    cases hst : st sid with
    | some h => simp [get_history, hst]
    | none =>
      simp only [get_history, hst]
      by_cases hs : s = sid
      · subst hs
        simp [hst]
      · simp [hs]
  rcases hfail with h | h
  · subst h
    exact ⟨rfl, key⟩
  · subst h
    cases retr with
    | none => exact ⟨rfl, key⟩
    | some docs => exact ⟨rfl, key⟩

/-- Witness for C2: a retrieval failure on a fresh map returns no result
and another session's turn sequence reads as empty before and after. -/
theorem query_failure_no_partial_memory_witness :
    (queryStep none (some ['a']) ['q'] "sess" emptyMap).1 = none
    ∧ ((queryStep none (some ['a']) ['q'] "sess" emptyMap).2 "other").getD []
        = (emptyMap "other").getD [] :=
  ⟨(query_failure_no_partial_memory none (some ['a']) ['q'] "sess" emptyMap
      (Or.inl rfl)).1,
   (query_failure_no_partial_memory none (some ['a']) ['q'] "sess" emptyMap
      (Or.inl rfl)).2 "other"⟩

/-- Counterexample to claim C6 as stated: `query` never validates the
question, so a query whose question is empty succeeds (returns a result)
instead of failing with `InvalidArgument`. -/
theorem query_empty_question_succeeds :
    ((queryStep (some []) (some ['a']) [] "default" emptyMap).1).isSome
      = true := by
  decide

/-- Claim C6 amended: `query` performs no validation of the question — an
empty question is processed exactly like any other and succeeds whenever
the backends succeed; `session_id` defaults to the fixed literal
`"default"` when omitted. -/
theorem query_no_validation_default_session :
    (∀ retr gen q st,
      queryNoSession retr gen q st = queryStep retr gen q "default" st)
    ∧ (∀ docs ans sid st,
      ((queryStep (some docs) (some ans) [] sid st).1).isSome = true) := by
  refine ⟨fun retr gen q st => rfl, ?_⟩
  intro docs ans sid st
  cases hst : st sid <;> simp [queryStep, get_history, hst]

/-- Claim C7: in a successful query result, each retrieved unit's sources
entry carries `content_preview` equal to the full content when its length
is ≤ 200 and to the first 200 characters followed by the ellipsis marker
when longer. -/
theorem query_sources_preview (docs : List RagChain.Doc) (ans q : List Char)
    (sid : String) (st : SessionMap) (d : RagChain.Doc) (hd : d ∈ docs) :
    ∃ r st2, queryStep (some docs) (some ans) q sid st = (some r, st2)
      ∧ mkSourceEntry d ∈ r.sources
      ∧ (d.page_content.length ≤ 200 →
          (mkSourceEntry d).content_preview = d.page_content)
      ∧ (200 < d.page_content.length →
          (mkSourceEntry d).content_preview
            = d.page_content.take 200 ++ ellipsis) := by
  refine ⟨_, _, rfl, List.mem_map_of_mem mkSourceEntry hd, ?_, ?_⟩
  · intro hlen
    simp [mkSourceEntry, Nat.not_lt.mpr hlen]
  · intro hlen
    simp [mkSourceEntry, hlen]

/-- Witness for C7: a short retrieved unit from `geo.pdf` yields a preview
equal to its full content. -/
theorem query_sources_preview_witness :
    (mkSourceEntry ⟨['P'], some "geo.pdf", some "pdf"⟩).content_preview
      = ['P'] := by
  obtain ⟨r, st2, heq, hmem, hshort, hlong⟩ :=
    query_sources_preview [⟨['P'], some "geo.pdf", some "pdf"⟩] ['a'] ['q']
      "s" emptyMap ⟨['P'], some "geo.pdf", some "pdf"⟩ (by simp)
  exact hshort (by decide)

/-- Claim C8: session isolation.  Operations keyed to `s1` never change the
entry of a distinct session `s2` (frame), and their results and effect on
`s1`'s entry depend only on `s1`'s entry, so nothing of another session is
ever revealed (noninterference). -/
theorem session_isolation (s1 s2 : String) (hne : s1 ≠ s2)
    (retr : Option (List RagChain.Doc)) (gen : Option (List Char))
    (q : List Char) (st stA stB : SessionMap) (hagree : stA s1 = stB s1) :
    (queryStep retr gen q s1 st).2 s2 = st s2
    ∧ (get_history s1 st).2 s2 = st s2
    ∧ (clear_memory s1 st).2 s2 = st s2
    ∧ (queryStep retr gen q s1 stA).1 = (queryStep retr gen q s1 stB).1
    ∧ (queryStep retr gen q s1 stA).2 s1 = (queryStep retr gen q s1 stB).2 s1
    ∧ (get_history s1 stA).1 = (get_history s1 stB).1
    ∧ (clear_memory s1 stA).1 = (clear_memory s1 stB).1 := by
  have hne2 : ¬ (s2 = s1) := fun h => hne h.symm
  have hgh : ∀ stX, (get_history s1 stX).2 s2 = stX s2 := by
    intro stX
    cases hst : stX s1 <;> simp [get_history, hst, hne2]
  refine ⟨?_, hgh st, ?_, ?_, ?_, ?_, ?_⟩
  · cases retr with
    | none => simpa [queryStep] using hgh st
    | some docs =>
      cases gen with
      | none => simpa [queryStep] using hgh st
      | some ans => simp [queryStep, hne2, hgh st]
  · cases hst : st s1 <;> simp [clear_memory, hst, hne2]
  · cases retr with
    | none => rfl
    | some docs =>
      cases gen with
      | none => rfl
      | some ans =>
        cases hA : stA s1 <;> cases hB : stB s1 <;>
          first
            | (exfalso; rw [hA, hB] at hagree; exact Option.noConfusion hagree)
            | simp_all [queryStep, get_history]
  · cases retr with
    | none =>
      cases hA : stA s1 <;> cases hB : stB s1 <;>
        simp_all [queryStep, get_history]
    | some docs =>
      cases gen with
      | none =>
        cases hA : stA s1 <;> cases hB : stB s1 <;>
          simp_all [queryStep, get_history]
      | some ans =>
        cases hA : stA s1 <;> cases hB : stB s1 <;>
          simp_all [queryStep, get_history]
  · cases hA : stA s1 <;> cases hB : stB s1 <;>
      simp_all [get_history]
  · cases hA : stA s1 <;> cases hB : stB s1 <;>
      simp_all [clear_memory]

/-- Witness for C8 at sessions `"a" ≠ "b"` on concrete states. -/
theorem session_isolation_witness :
    (queryStep none none [] "a" emptyMap).2 "b" = emptyMap "b"
    ∧ (get_history "a" emptyMap).2 "b" = emptyMap "b"
    ∧ (clear_memory "a" emptyMap).2 "b" = emptyMap "b"
    ∧ (queryStep none none [] "a" emptyMap).1
        = (queryStep none none [] "a" emptyMap).1
    ∧ (queryStep none none [] "a" emptyMap).2 "a"
        = (queryStep none none [] "a" emptyMap).2 "a"
    ∧ (get_history "a" emptyMap).1 = (get_history "a" emptyMap).1
    ∧ (clear_memory "a" emptyMap).1 = (clear_memory "a" emptyMap).1 :=
  session_isolation "a" "b" (by decide) none none [] emptyMap emptyMap
    emptyMap rfl

/-- Claim C10: a query on a fresh session id that fails at retrieval or at
generation still registers an empty history entry for that id (it is
created before retrieval runs), so `clear_memory` afterwards returns
`True` even though no turns were recorded. -/
theorem failed_query_registers_empty_history
    (retr : Option (List RagChain.Doc)) (gen : Option (List Char))
    (q : List Char) (sid : String) (st : SessionMap)
    (hfresh : st sid = none) (hfail : retr = none ∨ gen = none) :
    (queryStep retr gen q sid st).1 = none
    ∧ (queryStep retr gen q sid st).2 sid = some []
    ∧ (clear_memory sid ((queryStep retr gen q sid st).2)).1 = true := by
  have hreg : (get_history sid st).2 sid = some [] := by
    simp [get_history, hfresh]
  have hstep : (queryStep retr gen q sid st).2 sid = some [] := by
    rcases hfail with h | h
    · subst h
      exact hreg
    · subst h
      cases retr with
      | none => exact hreg
      | some docs => exact hreg
  refine ⟨?_, hstep, ?_⟩
  · rcases hfail with h | h
    · subst h
      rfl
    · subst h
      cases retr with
      | none => rfl
      | some docs => rfl
  · simp [clear_memory, hstep]

/-- Witness for C10: a generation failure on the fresh session `"new"`
registers an empty entry and `clear_memory` then reports `true`. -/
theorem failed_query_registers_empty_history_witness :
    (queryStep (some []) none ['q'] "new" emptyMap).1 = none
    ∧ (queryStep (some []) none ['q'] "new" emptyMap).2 "new" = some []
    ∧ (clear_memory "new" ((queryStep (some []) none ['q'] "new"
        emptyMap).2)).1 = true :=
  failed_query_registers_empty_history (some []) none ['q'] "new" emptyMap
    rfl (Or.inr rfl)
